import Mathlib

/-!
Shallow embedding of the asciicast2movie repository:
`tty2img.py` (terminal-screen rasterizer) and `asciicast2movie.py`
(frame sequencer and CLI entry point).

External libraries (PIL, pyte, freetype, fclist, moviepy, json, the
file system) are modelled as explicit environment parameters; the
rendered image is the list of drawing operations issued on the
initialized canvas; machine floats are modelled as rationals — every
timing computation checked below is exact dyadic arithmetic, on which
binary floating point agrees.
-/

namespace Asciicast

/-- One cell of the pyte screen buffer (`pyte.screens.Char`): display
character and style attributes, read-only for the rasterizer. -/
structure PyteChar where
  data : String
  fg : String := "default"
  bg : String := "default"
  bold : Bool := false
  italics : Bool := false
  underscore : Bool := false
  strikethrough : Bool := false
  reverse : Bool := false
  deriving DecidableEq

/-- pyte cursor state: position and hidden flag. -/
structure Cursor where
  x : ℕ
  y : ℕ
  hidden : Bool
  deriving DecidableEq

/-- pyte screen snapshot. `buffer` models pyte's dict-of-dicts in its
iteration order: a list of (line index, list of (column index, cell)). -/
structure Screen where
  columns : ℕ
  lines : ℕ
  buffer : List (ℕ × List (ℕ × PyteChar))
  cursor : Cursor

/-- A loaded PIL font object together with its freetype face:
`name` is the font file path, `getsizeW` is `getsize(s)[0]` (advance
width) and ascent/descent are `getmetrics()`. -/
structure FontFace where
  name : String
  getsizeW : String → ℕ
  ascent : ℕ
  descent : ℕ

/-- The external font/draw environment of tty2img: PIL's
`ImageFont.truetype`, the optional freetype module (glyph coverage:
`Face.get_char_index(c) != 0`), the fclist fontconfig query and PIL's
named-colour table membership. -/
structure PILEnv where
  truetype : String → ℕ → FontFace
  freetypeAvailable : Bool
  hasGlyph : String → String → Bool
  fclist : String → String → List String
  colormapMem : String → Bool

/-- Python `hex(ord(c))` for the (single-character) cell data string. -/
def hexOrd (s : String) : String :=
  "0x" ++ String.mk (Nat.toDigits 16 s.front.toNat)

/-- `tty2img._convertColor`: prefix a hash mark to colour strings that
neither start with one nor are PIL named colours. -/
def convertColor (env : PILEnv) (color : String) : String :=
  if color.front ≠ '#' ∧ env.colormapMem color = false then "#" ++ color
  else color

/-- Effective (background, foreground) colour pair of one cell,
tty2img lines 132-139: substitute configured defaults, swap on
reverse-video, swap again when the displayed cursor is on the cell. -/
def cellColors (bgDefaultColor fgDefaultColor : String) (cData : PyteChar)
    (cursorHere : Bool) : String × String :=
  let bgColor := if cData.bg ≠ "default" then cData.bg else bgDefaultColor
  let fgColor := if cData.fg ≠ "default" then cData.fg else fgDefaultColor
  let p := if cData.reverse then (fgColor, bgColor) else (bgColor, fgColor)
  if cursorHere then (p.2, p.1) else p

/-- One drawing primitive issued on the PIL canvas. -/
inductive DrawOp where
  | rect (topLeft bottomRight : ℤ × ℤ) (fill : String)
  | lineSeg (a b : ℤ × ℤ) (fill : String)
  | text (point : ℤ × ℤ) (data : String) (fill : String) (fontName : String)
  deriving DecidableEq

/-- The rendered image: canvas size, initial background colour and the
drawing operations issued on it, in order. -/
structure Image where
  width : ℕ
  height : ℕ
  background : String
  ops : List DrawOp
  deriving DecidableEq

/-- The keyword options of tty2img, with the source defaults.
`logFunction` records whether a logging callback was supplied. -/
structure RenderConfig where
  fgDefaultColor : String := "#00ff00"
  bgDefaultColor : String := "black"
  fontName : String := "DejaVuSansMono.ttf"
  boldFontName : String := "DejaVuSansMono-Bold.ttf"
  italicsFontName : String := "DejaVuSansMono-Oblique.ttf"
  boldItalicsFontName : String := "DejaVuSansMono-BoldOblique.ttf"
  fallbackFonts : List String := ["DroidSansFallback", "Symbola"]
  fontSize : ℕ := 17
  lineSpace : ℕ := 0
  marginSize : ℕ := 5
  antialiasing : ℕ := 0
  showCursor : Bool := false
  logFunction : Bool := false

/-- Values computed once per tty2img call (lines 90-118): scaled
sizes, the four loaded fonts, cell geometry and the effective
cursor-display flag. -/
structure DrawCtx where
  env : PILEnv
  cfg : RenderConfig
  fontSize : ℕ
  marginSize : ℕ
  normalFont : FontFace
  boldFont : FontFace
  italicsFont : FontFace
  boldItalicsFont : FontFace
  charWidth : ℕ
  charHeight : ℕ
  showCursor : Bool
  cursor : Cursor

def mkDrawCtx (env : PILEnv) (screen : Screen) (cfg : RenderConfig) : DrawCtx :=
  let lineSpace := if cfg.antialiasing > 1 then cfg.lineSpace * cfg.antialiasing else cfg.lineSpace
  let marginSize := if cfg.antialiasing > 1 then cfg.marginSize * cfg.antialiasing else cfg.marginSize
  let fontSize := if cfg.antialiasing > 1 then cfg.fontSize * cfg.antialiasing else cfg.fontSize
  let normalFont := env.truetype cfg.fontName fontSize
  { env := env
    cfg := cfg
    fontSize := fontSize
    marginSize := marginSize
    normalFont := normalFont
    boldFont := env.truetype cfg.boldFontName fontSize
    italicsFont := env.truetype cfg.italicsFontName fontSize
    boldItalicsFont := env.truetype cfg.boldItalicsFontName fontSize
    charWidth := normalFont.getsizeW "X"
    charHeight := normalFont.ascent + normalFont.descent + lineSpace
    showCursor := cfg.showCursor && !screen.cursor.hidden
    cursor := screen.cursor }

/-- Font variant selection by the cell's bold/italics flags
(tty2img lines 148-155). -/
def selectFont (ctx : DrawCtx) (cData : PyteChar) : FontFace :=
  if cData.bold ∧ cData.italics then ctx.boldItalicsFont
  else if cData.bold then ctx.boldFont
  else if cData.italics then ctx.italicsFont
  else ctx.normalFont

def missingGlyphMsg (data : String) : String :=
  "Missing glyph for " ++ hexOrd data ++ " Unicode symbols (" ++ data ++ ")"

/-- The fallback-family search loop of tty2img lines 161-168: for each
configured family in order, query fclist for the character; the first
file of the first non-empty answer wins. -/
def searchFallback (env : PILEnv) (fontSize : ℕ) (data : String) :
    List String → Option FontFace
  | [] => none
  | fname :: rest =>
    match env.fclist fname (hexOrd data) with
    | [] => searchFallback env fontSize data rest
    | file :: _ => some (env.truetype file fontSize)

/-- Glyph-coverage check and fallback-font substitution of tty2img
lines 157-171. Returns the font to draw with, the extra advance width
`max(0, fallbackWidth - charWidth)` and the log messages emitted (the
missing-glyph diagnostic fires only when the outer for-loop finds no
family — Python's for/else — and a log callback was supplied). -/
def resolveFont (env : PILEnv) (logFunction : Bool) (fallbackFonts : List String)
    (fontSize charWidth : ℕ) (font : FontFace) (data : String) :
    FontFace × ℤ × List String :=
  if env.freetypeAvailable = true ∧ env.hasGlyph font.name data = false then
    match searchFallback env fontSize data fallbackFonts with
    | some ff => (ff, max 0 ((ff.getsizeW data : ℤ) - (charWidth : ℤ)), [])
    | none => (font, 0, if logFunction then [missingGlyphMsg data] else [])
  else (font, 0, [])

/-- Drawing of one non-empty buffer cell (tty2img lines 131-181):
background rectangle (only when distinct from the configured default),
underscore and strikethrough lines, then the glyph text. Returns the
issued operations, the fallback extra advance width and the cell's log
messages. -/
def cellRender (ctx : DrawCtx) (lineIdx : ℕ) (pointX pointY : ℤ)
    (cData : PyteChar) (colIdx : ℕ) : List DrawOp × ℤ × List String :=
  let cursorHere := ctx.showCursor && (lineIdx == ctx.cursor.y) && (colIdx == ctx.cursor.x)
  let bgfg := cellColors ctx.cfg.bgDefaultColor ctx.cfg.fgDefaultColor cData cursorHere
  let bgColor := convertColor ctx.env bgfg.1
  let fgColor := convertColor ctx.env bgfg.2
  let bgOps := if bgColor ≠ ctx.cfg.bgDefaultColor then
      [DrawOp.rect (pointX, pointY) (pointX + ctx.charWidth, pointY + ctx.charHeight) bgColor]
    else []
  let rf := resolveFont ctx.env ctx.cfg.logFunction ctx.cfg.fallbackFonts
      ctx.fontSize ctx.charWidth (selectFont ctx cData) cData.data
  let underOps := if cData.underscore then
      [DrawOp.lineSeg (pointX, pointY + ctx.charHeight - 1)
        (pointX + ctx.charWidth, pointY + ctx.charHeight - 1) fgColor]
    else []
  let strikeOps := if cData.strikethrough then
      [DrawOp.lineSeg (pointX, pointY + ctx.charHeight / 2)
        (pointX + ctx.charWidth, pointY + ctx.charHeight / 2) fgColor]
    else []
  (bgOps ++ underOps ++ strikeOps ++
      [DrawOp.text (pointX, pointY) cData.data fgColor rf.1.name],
    rf.2.1, rf.2.2)

/-- Loop state while walking the cells of one row: the horizontal
drawing position, the accumulated operations and logs, and the last
iterated column key (Python's leaked loop variable `char`). -/
structure CellState where
  pointX : ℤ
  ops : List DrawOp
  logs : List String
  lastChar : Option ℕ
  deriving DecidableEq

/-- Processing of one buffer cell (tty2img lines 124-184): cells whose
data is the empty string are skipped entirely — the loop variable is
still assigned — and otherwise the cell is drawn and the position
advances by the cell width plus the fallback extra width. -/
def processCell (ctx : DrawCtx) (lineIdx : ℕ) (pointY : ℤ)
    (st : CellState) (cell : ℕ × PyteChar) : CellState :=
  if cell.2.data = "" then { st with lastChar := some cell.1 }
  else
    let r := cellRender ctx lineIdx st.pointX pointY cell.2 cell.1
    { pointX := st.pointX + ctx.charWidth + r.2.1
      ops := st.ops ++ r.1
      logs := st.logs ++ r.2.2
      lastChar := some cell.1 }

/-- Accumulated rasterizer state across rows. -/
structure DrawAcc where
  ops : List DrawOp
  logs : List String
  lastChar : Option ℕ
  deriving DecidableEq

/-- Processing of one buffer row (tty2img lines 121-189), including
the out-of-text-range cursor rectangle: when the cursor is displayed on
this row and its column key is absent from the row, the rectangle's
position is computed from the row's final drawing position and the last
iterated column key; if no cell was ever iterated that Python name is
unbound and the call dies with a NameError. -/
def processRow (ctx : DrawCtx) (acc : DrawAcc) (row : ℕ × List (ℕ × PyteChar)) :
    Except String DrawAcc :=
  let lineIdx := row.1
  let pointY : ℤ := (lineIdx : ℤ) * ctx.charHeight + ctx.marginSize
  let st0 : CellState := ⟨(ctx.marginSize : ℤ), acc.ops, acc.logs, acc.lastChar⟩
  let st := row.2.foldl (processCell ctx lineIdx pointY) st0
  if ctx.showCursor = true ∧ lineIdx = ctx.cursor.y ∧
      (row.2.all fun c => c.1 != ctx.cursor.x) = true then
    match st.lastChar with
    | none => Except.error "NameError: name char is not defined"
    | some ch =>
      let x := st.pointX + ((ctx.cursor.x : ℤ) - (ch : ℤ) - 1) * ctx.charWidth
      Except.ok ⟨st.ops ++
          [DrawOp.rect (x, pointY) (x + ctx.charWidth, pointY + ctx.charHeight)
            ctx.cfg.fgDefaultColor],
        st.logs, st.lastChar⟩
  else Except.ok ⟨st.ops, st.logs, st.lastChar⟩

/-- `tty2img.tty2img`: rasterize a pyte screen snapshot as an image.
Returns the image and the emitted log messages, or the uncaught Python
exception. -/
def tty2img (env : PILEnv) (screen : Screen) (cfg : RenderConfig) :
    Except String (Image × List String) :=
  let ctx := mkDrawCtx env screen cfg
  let imgWidth := ctx.charWidth * screen.columns + 2 * ctx.marginSize
  let imgHeight := ctx.charHeight * screen.lines + 2 * ctx.marginSize
  match screen.buffer.foldlM (processRow ctx) (⟨[], [], none⟩ : DrawAcc) with
  | Except.error e => Except.error e
  | Except.ok acc =>
    let image : Image := ⟨imgWidth, imgHeight, cfg.bgDefaultColor, acc.ops⟩
    if cfg.antialiasing > 1 then
      Except.ok ({ image with
          width := imgWidth / cfg.antialiasing,
          height := imgHeight / cfg.antialiasing }, acc.logs)
    else Except.ok (image, acc.logs)

/-- Python truthiness of the optional `blinkingCursor` float argument. -/
def optTruthy : Option ℚ → Bool
  | none => false
  | some q => q != 0

/-- The while loop of `render_asciicast_frames` (asciicast2movie lines
67-86): the list of (duration, showCursor option) of the sub-frame
clips rendered for one frame whose display interval is
[startTime, endTime).  With a truthy blink value and a visible cursor
the first sub-frame lasts half the blink value and shows the cursor,
later sub-frames last the full blink value and alternate; otherwise a
single clip of the remaining interval is rendered with the tty2img
default (no showCursor option).  The loop repeats while
startTime < endTime; `fuel` bounds the recursion (each blinking
iteration advances startTime by at least half the blink value, so the
Python loop terminates whenever that value is positive). -/
def renderLoop (blinking : Option ℚ) (hidden : Bool) :
    ℕ → ℚ → ℚ → ℕ → List (ℚ × Option Bool)
  | 0, _, _, _ => []
  | fuel + 1, startTime, endTime, cursor =>
    if startTime < endTime then
      if optTruthy blinking = true ∧ hidden = false then
        let b := blinking.getD 0
        let duration := if cursor = 0 then b / 2 else b
        let opt : Option Bool := if cursor % 2 = 0 then some true else some false
        (duration, opt) :: renderLoop blinking hidden fuel (startTime + duration) endTime (cursor + 1)
      else
        (endTime - startTime, none) :: renderLoop blinking hidden fuel endTime endTime cursor
    else []

/-- `render_asciicast_frames` (asciicast2movie lines 59-88), timing
view.  A frame is (timestamp, cursorHiddenAfterFeed): feeding the
frame content into the pyte emulator is external, and its only
timing-relevant observable is `screen.cursor.hidden` during the
frame's while loop.  The end time of frame i is the timestamp of frame
i+1, and of the last frame its own timestamp plus `lastFrameDuration`
(the zip construction of line 60); `inputData[-1]` raises IndexError
on an empty list.  Returns the (duration, showCursor option) clips. -/
def render_asciicast_frames (fuel : ℕ) (frames : List (ℚ × Bool))
    (blinking : Option ℚ) (lastFrameDuration : ℚ) :
    Except String (List (ℚ × Option Bool)) :=
  match frames.getLast? with
  | none => Except.error "IndexError: list index out of range"
  | some last =>
    let nextFrameStartTimes := (frames.map Prod.fst).tail ++ [last.1 + lastFrameDuration]
    Except.ok ((frames.zip nextFrameStartTimes).flatMap
      fun p => renderLoop blinking p.1.2 fuel p.1.1 p.2 0)

/-- Line view of a file's content, as Python's file/StringIO iteration
presents it to the header and frame parsing: split at newlines. -/
def splitLines (s : String) : List String :=
  (s.data.splitOn '\n').map List.asString

/-- The four accepted shapes of `asciicast2video`'s inputData. -/
inductive InputData where
  | path (s : String)
  | content (s : String)
  | strFrames (l : List String)
  | listFrames (l : List (ℚ × String))

/-- External environment of `asciicast2video`: the file system, the
json parses of the header line (`['width']`, `['height']`) and of a
frame line (`[0]`, `[-1]`; `none` models any json or indexing failure),
and the pyte emulator's cursor-hidden flag after feeding frames 0..i. -/
structure IOEnv where
  readFile : String → String
  parseHeader : String → Option (ℕ × ℕ)
  parseFrame : String → Option (ℚ × String)
  hiddenAfter : ℕ → Bool

/-- Python falsiness of the optional width/height argument
(`not width`): absent, or zero. -/
def optNatFalsy : Option ℕ → Bool
  | none => true
  | some n => n == 0

/-- Continuation of `asciicast2video` after width/height resolution
(asciicast2movie lines 146-160): the trace records the
`pyte.Screen(width, height)` construction, then the input is converted
to a frame list (json failures are fatal) and the frames rendered. -/
def asciicast2videoBody (env : IOEnv) (fuel : ℕ) (inputData : InputData)
    (fileLines : Option (List String)) (w h : ℕ)
    (blinking : Option ℚ) (lastFrameDuration : ℚ) :
    List String × Except String (List (ℚ × Option Bool)) :=
  let trace := ["pyte.Screen " ++ toString w ++ " " ++ toString h]
  let framesE : Except String (List (ℚ × String)) :=
    match inputData, fileLines with
    | InputData.listFrames l, _ => Except.ok l
    | InputData.strFrames l, _ =>
      match l.mapM env.parseFrame with
      | some fs => Except.ok fs
      | none => Except.error "json.decoder.JSONDecodeError"
    | _, some ls =>
      match ls.mapM env.parseFrame with
      | some fs => Except.ok fs
      | none => Except.error "json.decoder.JSONDecodeError"
    | _, none => Except.error "unreachable"
  match framesE with
  | Except.error e => (trace, Except.error e)
  | Except.ok fs =>
    (trace, render_asciicast_frames fuel
      (fs.enum.map fun p => (p.2.1, env.hiddenAfter p.1)) blinking lastFrameDuration)

/-- `asciicast2video` (asciicast2movie lines 90-160).  A string input
becomes a line stream (file content by path, or the literal multiline
content); when width or height is falsy they must be read from the
header line — list inputs have no header, so that case raises
immediately, before the pyte screen is constructed or any frame is
parsed or rendered (the returned trace is empty). -/
def asciicast2video (env : IOEnv) (fuel : ℕ) (inputData : InputData)
    (width height : Option ℕ) (blinking : Option ℚ) (lastFrameDuration : ℚ) :
    List String × Except String (List (ℚ × Option Bool)) :=
  let fileLines : Option (List String) :=
    match inputData with
    | InputData.path s => some (splitLines (env.readFile s))
    | InputData.content s => some (splitLines s)
    | _ => none
  if optNatFalsy width = true ∨ optNatFalsy height = true then
    match fileLines with
    | none => ([], Except.error "when inputData is list width and height must be set in args")
    | some ls =>
      match env.parseHeader (ls.headD "") with
      | none => ([], Except.error "KeyError: width/height missing from asciicast header")
      | some wh =>
        asciicast2videoBody env fuel inputData (some ls.tail) wh.1 wh.2 blinking lastFrameDuration
  else
    asciicast2videoBody env fuel inputData fileLines (width.getD 0) (height.getD 0)
      blinking lastFrameDuration

/-- The two standard output streams of the process. -/
inductive StdStream where
  | stdout
  | stderr
  deriving DecidableEq

/-- An early CLI exit: which stream the message went to, the message,
and the process exit code. -/
structure UsageExit where
  stream : StdStream
  message : String
  exitCode : ℕ
  deriving DecidableEq

/-- The argument check of `main` (asciicast2movie lines 165-167):
with `len(sys.argv) != 3` — i.e. a positional-argument count other
than two — the usage line is printed (Python `print`, hence standard
output) and the process exits with code 1. -/
def mainArgCheck (prog : String) (args : List String) : Option UsageExit :=
  if args.length + 1 ≠ 3 then
    some ⟨StdStream.stdout, "USAGE: " ++ prog ++ " asciicast_file output_video_file", 1⟩
  else none

/-! Concrete example inputs used to instantiate the theorems below. -/

/-- A simple monospace font model: every glyph advances 10 pixels,
ascent 8 and descent 2. -/
def exFont (name : String) : FontFace :=
  { name := name, getsizeW := fun s => 10 * s.length, ascent := 8, descent := 2 }

/-- A font environment without the optional freetype/fclist modules. -/
def exEnv : PILEnv :=
  { truetype := fun n _ => exFont n
    freetypeAvailable := false
    hasGlyph := fun _ _ => true
    fclist := fun _ _ => []
    colormapMem := fun c => c == "black" }

/-- A font environment with freetype available, a primary font lacking
every glyph and the Symbola fallback family answering every query. -/
def exEnvFallback : PILEnv :=
  { truetype := fun n _ => exFont n
    freetypeAvailable := true
    hasGlyph := fun _ _ => false
    fclist := fun fam _ => if fam == "Symbola" then ["Symbola.ttf"] else []
    colormapMem := fun c => c == "black" }

def exCell : PyteChar := { data := "A" }

def exCellEmpty : PyteChar := { data := "" }

def exCfg : RenderConfig := { showCursor := true }

def exScreen : Screen :=
  { columns := 10, lines := 3
    buffer := [(0, [(0, exCell), (1, exCell)])]
    cursor := ⟨1, 0, false⟩ }

def exCtx : DrawCtx := mkDrawCtx exEnv exScreen exCfg

/-- An asciicast I/O environment whose header parser recognizes the
line "HDR" as a header declaring an 80 by 24 terminal. -/
def exIOEnv : IOEnv :=
  { readFile := fun _ => ""
    parseHeader := fun s => if s == "HDR" then some (80, 24) else none
    parseFrame := fun _ => none
    hiddenAfter := fun _ => false }

/-- A screen whose only row holds one cell at column 5, with the
displayed cursor at the unoccupied column 7 of that row. -/
def exScreenGap : Screen :=
  { columns := 10, lines := 3
    buffer := [(0, [(5, exCell)])]
    cursor := ⟨7, 0, false⟩ }

/-! # Theorems -/

/-- Helper: the while loop exits as soon as startTime is not below
endTime, independently of the remaining fuel. -/
theorem renderLoop_stop (blinking : Option ℚ) (hidden : Bool) (fuel : ℕ)
    (s e : ℚ) (c : ℕ) (h : ¬ s < e) : renderLoop blinking hidden fuel s e c = [] := by
  cases fuel with
  | zero => rfl
  | succ n => simp [renderLoop, h]

/-- Helper: the blinking subdivision of the frame interval [0, 2) with
blink value 1/2 and a visible cursor, for any sufficient fuel: five
sub-frames, first a half-period visible one, then full periods
alternating hidden/visible; the loop naturally stops after the fifth
(accumulated time 9/4 ≥ 2). -/
theorem renderLoop_blink_eval (fuel : ℕ) :
    renderLoop (some (1/2)) false (fuel + 5) 0 2 0 =
      [(1/4, some true), (1/2, some false), (1/2, some true),
       (1/2, some false), (1/2, some true)] := by
  norm_num [renderLoop, optTruthy]
  rw [renderLoop_stop]
  norm_num

/-- C1 counterexample: for a frame spanning [0, 2) with blink value
1/2 and a visible cursor, the sub-frame durations produced by the
while loop of render_asciicast_frames do not sum to 2.0, the length of
the frame's display interval. -/
theorem renderLoop_blink_sum_ne_two :
    ((renderLoop (some (1/2)) false 100 0 2 0).map Prod.fst).sum ≠ 2 := by
  have h := renderLoop_blink_eval 95
  norm_num at h
  rw [show (100 : ℕ) = 95 + 5 by norm_num, h]
  norm_num

/-- C1 (amended): over a frame spanning [0, 2) with blink value 1/2
and a visible cursor, the loop produces alternating
visible/hidden sub-frames of durations [1/4, 1/2, 1/2, 1/2, 1/2] —
first sub-frame a half period and cursor-visible, subsequent
sub-frames full periods alternating hidden/visible — whose durations
sum to 9/4 = 2.25: the subdivision stops once the accumulated time
reaches the next frame's start, without truncating the final
sub-frame, so the total exceeds the 2.0-second interval. -/
theorem renderLoop_blink_frame_zero_two (fuel : ℕ) :
    renderLoop (some (1/2)) false (fuel + 5) 0 2 0 =
      [(1/4, some true), (1/2, some false), (1/2, some true),
       (1/2, some false), (1/2, some true)] ∧
    ((renderLoop (some (1/2)) false (fuel + 5) 0 2 0).map Prod.fst).sum = 9/4 := by
  refine ⟨renderLoop_blink_eval fuel, ?_⟩
  rw [renderLoop_blink_eval fuel]
  norm_num

/-- C4: tty2img is deterministic — equal snapshot, configuration and
font environment give equal results (image and log messages), the
embedding having no other state. -/
theorem tty2img_deterministic (env1 env2 : PILEnv) (s1 s2 : Screen)
    (c1 c2 : RenderConfig) (he : env1 = env2) (hs : s1 = s2) (hc : c1 = c2) :
    tty2img env1 s1 c1 = tty2img env2 s2 c2 := by
  subst he; subst hs; subst hc; rfl

/-- C4 witness. -/
theorem tty2img_deterministic_witness :
    tty2img exEnv exScreen exCfg = tty2img exEnv exScreen exCfg :=
  tty2img_deterministic exEnv exEnv exScreen exScreen exCfg exCfg rfl rfl rfl

/-- C5: for a reverse-video cell under the displayed cursor — cursor
display enabled, cursor not hidden, cell at the cursor position — the
effective colour pair equals the cell's original resolved colours: the
two swaps compose to the identity.  The boolean argument is exactly
the cursor test cellRender computes from mkDrawCtx's cursor state. -/
theorem cellColors_reverse_cursor (env : PILEnv) (screen : Screen)
    (cfg : RenderConfig) (lineIdx colIdx : ℕ) (cData : PyteChar)
    (hrev : cData.reverse = true) (hshow : cfg.showCursor = true)
    (hhid : screen.cursor.hidden = false)
    (hy : lineIdx = screen.cursor.y) (hx : colIdx = screen.cursor.x) :
    cellColors cfg.bgDefaultColor cfg.fgDefaultColor cData
        ((mkDrawCtx env screen cfg).showCursor &&
          (lineIdx == (mkDrawCtx env screen cfg).cursor.y) &&
          (colIdx == (mkDrawCtx env screen cfg).cursor.x)) =
      (if cData.bg ≠ "default" then cData.bg else cfg.bgDefaultColor,
       if cData.fg ≠ "default" then cData.fg else cfg.fgDefaultColor) := by
  subst hy; subst hx
  simp [mkDrawCtx, cellColors, hrev, hshow, hhid]

/-- C5 witness. -/
theorem cellColors_reverse_cursor_witness :
    ({ data := "A", reverse := true : PyteChar }).reverse = true ∧
    exCfg.showCursor = true ∧ exScreen.cursor.hidden = false ∧
    cellColors exCfg.bgDefaultColor exCfg.fgDefaultColor
        { data := "A", reverse := true }
        ((mkDrawCtx exEnv exScreen exCfg).showCursor &&
          (0 == (mkDrawCtx exEnv exScreen exCfg).cursor.y) &&
          (1 == (mkDrawCtx exEnv exScreen exCfg).cursor.x)) =
      (if ({ data := "A", reverse := true : PyteChar }).bg ≠ "default"
         then ({ data := "A", reverse := true : PyteChar }).bg else exCfg.bgDefaultColor,
       if ({ data := "A", reverse := true : PyteChar }).fg ≠ "default"
         then ({ data := "A", reverse := true : PyteChar }).fg else exCfg.fgDefaultColor) :=
  ⟨rfl, rfl, rfl,
    cellColors_reverse_cursor exEnv exScreen exCfg 0 1 { data := "A", reverse := true }
      rfl rfl rfl rfl rfl⟩

/-- C8 counterexample: invoked with no positional argument, main
prints the usage line to standard output — Python's `print` writes to
stdout — not to standard error as claimed. -/
theorem mainArgCheck_stdout_not_stderr :
    mainArgCheck "asciicast2movie.py" [] =
      some ⟨StdStream.stdout,
        "USAGE: asciicast2movie.py asciicast_file output_video_file", 1⟩ ∧
    StdStream.stdout ≠ StdStream.stderr := by
  exact ⟨rfl, by decide⟩

/-- C8 (amended): for every invocation with a positional-argument
count other than exactly two, main writes the usage message to
standard output and exits with code 1, a nonzero exit code. -/
theorem mainArgCheck_usage (prog : String) (args : List String)
    (h : args.length ≠ 2) :
    mainArgCheck prog args =
      some ⟨StdStream.stdout,
        "USAGE: " ++ prog ++ " asciicast_file output_video_file", 1⟩ ∧
    (1 : ℕ) ≠ 0 := by
  have h3 : args.length + 1 ≠ 3 := by omega
  exact ⟨by simp [mainArgCheck, h3], by norm_num⟩

/-- C3: with antialiasing disabled (factor ≤ 1) the returned image's
pixel dimensions are exactly (columns·cellWidth + 2·margin,
lines·cellHeight + 2·margin), cellWidth the advance width of the
reference glyph X in the normal font and cellHeight the normal font's
ascent + descent plus the configured line spacing. -/
theorem tty2img_image_size (env : PILEnv) (screen : Screen) (cfg : RenderConfig)
    (ha : cfg.antialiasing ≤ 1) (img : Image) (logs : List String)
    (h : tty2img env screen cfg = Except.ok (img, logs)) :
    img.width = screen.columns * ((env.truetype cfg.fontName cfg.fontSize).getsizeW "X")
        + 2 * cfg.marginSize ∧
    img.height = screen.lines * ((env.truetype cfg.fontName cfg.fontSize).ascent
        + (env.truetype cfg.fontName cfg.fontSize).descent + cfg.lineSpace)
        + 2 * cfg.marginSize := by
  have ha2 : ¬ cfg.antialiasing > 1 := by omega
  simp only [tty2img] at h
  split at h
  · exact absurd h (by simp)
  · rw [if_neg ha2] at h
    injection h with h2
    injection h2 with hA hB
    subst hA
    constructor
    · show (mkDrawCtx env screen cfg).charWidth * screen.columns
          + 2 * (mkDrawCtx env screen cfg).marginSize = _
      simp [mkDrawCtx, ha2]
      ring
    · show (mkDrawCtx env screen cfg).charHeight * screen.lines
          + 2 * (mkDrawCtx env screen cfg).marginSize = _
      simp [mkDrawCtx, ha2]
      ring

/-- C3 witness. -/
theorem tty2img_image_size_witness :
    exCfg.antialiasing ≤ 1 ∧
    (({ width := 110, height := 40, background := "black",
        ops := [DrawOp.text (5, 5) "A" "#00ff00" "DejaVuSansMono.ttf",
                DrawOp.rect (15, 5) (25, 15) "#00ff00",
                DrawOp.text (15, 5) "A" "black" "DejaVuSansMono.ttf"] } : Image).width
        = exScreen.columns * ((exEnv.truetype exCfg.fontName exCfg.fontSize).getsizeW "X")
          + 2 * exCfg.marginSize ∧
     ({ width := 110, height := 40, background := "black",
        ops := [DrawOp.text (5, 5) "A" "#00ff00" "DejaVuSansMono.ttf",
                DrawOp.rect (15, 5) (25, 15) "#00ff00",
                DrawOp.text (15, 5) "A" "black" "DejaVuSansMono.ttf"] } : Image).height
        = exScreen.lines * ((exEnv.truetype exCfg.fontName exCfg.fontSize).ascent
          + (exEnv.truetype exCfg.fontName exCfg.fontSize).descent + exCfg.lineSpace)
          + 2 * exCfg.marginSize) :=
  ⟨by decide, tty2img_image_size exEnv exScreen exCfg (by decide) _ _ rfl⟩

/-- Helper: without the freetype module a cell contributes no fallback
extra advance width and no log message. -/
theorem cellRender_no_freetype (ctx : DrawCtx) (hft : ctx.env.freetypeAvailable = false)
    (lineIdx : ℕ) (px py : ℤ) (cData : PyteChar) (col : ℕ) :
    (cellRender ctx lineIdx px py cData col).2.1 = 0 ∧
    (cellRender ctx lineIdx px py cData col).2.2 = [] := by
  simp [cellRender, resolveFont, hft]

/-- Helper: over a row whose cells sit at columns 0..k-1, all with
non-empty data and no fallback extra width, the drawing position
advances exactly k cell widths. -/
theorem fold_range_pointX (ctx : DrawCtx) (hft : ctx.env.freetypeAvailable = false)
    (lineIdx : ℕ) (py : ℤ) (c : ℕ → PyteChar) :
    ∀ (k : ℕ), (∀ i, i < k → (c i).data ≠ "") → ∀ st : CellState,
      (((List.range k).map (fun i => (i, c i))).foldl
          (processCell ctx lineIdx py) st).pointX = st.pointX + k * ctx.charWidth := by
  intro k
  induction k with
  | zero => intro _ st; simp
  | succ n ih =>
    intro hk st
    rw [List.range_succ, List.map_append, List.foldl_append]
    have h1 := ih (fun i hi => hk i (by omega)) st
    simp only [List.map_cons, List.map_nil, List.foldl_cons, List.foldl_nil]
    rw [processCell, if_neg (by simpa using hk n (by omega))]
    simp only [h1]
    have h2 := (cellRender_no_freetype ctx hft lineIdx
      (((List.range n).map (fun i => (i, c i))).foldl (processCell ctx lineIdx py) st).pointX
      py (c n) n).1
    rw [h1] at h2
    simp only [h2]
    push_cast
    ring

/-- Helper: after iterating a row whose cells sit at columns 0..k, the
leaked loop variable holds the last column key k (it is assigned even
for skipped empty cells). -/
theorem fold_range_lastChar (ctx : DrawCtx) (lineIdx : ℕ) (py : ℤ) (c : ℕ → PyteChar)
    (k : ℕ) (st : CellState) :
    (((List.range (k+1)).map (fun i => (i, c i))).foldl
        (processCell ctx lineIdx py) st).lastChar = some k := by
  rw [List.range_succ, List.map_append, List.foldl_append]
  simp only [List.map_cons, List.map_nil, List.foldl_cons, List.foldl_nil]
  rw [processCell]
  split <;> rfl

/-- C7 (amended): when the displayed cursor's row has its occupied
cells exactly at columns 0..k-1 (some k ≥ 1), each with non-empty data
and no fallback extra advance, and the cursor column is unoccupied,
the out-of-text-range branch draws a filled rectangle of one cell's
width and height at exactly (margin + cursor.x·cellWidth,
margin + cursor.y·cellHeight) in the default foreground colour.  (In
general the x position is the row's final drawing position plus
(cursor.x − lastIteratedColumn − 1)·cellWidth, which deviates from the
cursor's grid position for rows with gaps, skipped empty cells or
fallback-width shifts — see the counterexample.) -/
theorem processRow_cursor_rect (ctx : DrawCtx) (acc : DrawAcc) (k : ℕ) (hk : 0 < k)
    (c : ℕ → PyteChar) (hdata : ∀ i, i < k → (c i).data ≠ "")
    (hft : ctx.env.freetypeAvailable = false)
    (hshow : ctx.showCursor = true) (hcx : k ≤ ctx.cursor.x) :
    ∃ acc2, processRow ctx acc (ctx.cursor.y, (List.range k).map (fun i => (i, c i)))
        = Except.ok acc2 ∧
      acc2.ops.getLast? = some (DrawOp.rect
        ((ctx.marginSize : ℤ) + (ctx.cursor.x : ℤ) * (ctx.charWidth : ℤ),
         (ctx.cursor.y : ℤ) * (ctx.charHeight : ℤ) + (ctx.marginSize : ℤ))
        ((ctx.marginSize : ℤ) + (ctx.cursor.x : ℤ) * (ctx.charWidth : ℤ) + (ctx.charWidth : ℤ),
         (ctx.cursor.y : ℤ) * (ctx.charHeight : ℤ) + (ctx.marginSize : ℤ) + (ctx.charHeight : ℤ))
        ctx.cfg.fgDefaultColor) := by
  have hcond : (((List.range k).map (fun i => (i, c i))).all
      fun p => p.1 != ctx.cursor.x) = true := by
    simp only [List.all_eq_true]
    intro p hp
    simp only [List.mem_map, List.mem_range] at hp
    obtain ⟨i, hi, rfl⟩ := hp
    simpa using by omega
  obtain ⟨k0, rfl⟩ : ∃ k0, k = k0 + 1 := ⟨k - 1, by omega⟩
  have hlast := fold_range_lastChar ctx (ctx.cursor.y)
    ((ctx.cursor.y : ℤ) * ctx.charHeight + ctx.marginSize) c k0
    ⟨(ctx.marginSize : ℤ), acc.ops, acc.logs, acc.lastChar⟩
  have hpx := fold_range_pointX ctx hft (ctx.cursor.y)
    ((ctx.cursor.y : ℤ) * ctx.charHeight + ctx.marginSize) c (k0+1) hdata
    ⟨(ctx.marginSize : ℤ), acc.ops, acc.logs, acc.lastChar⟩
  simp only [processRow, hcond, hshow, and_true, true_and, and_self, if_pos, if_true]
  have hpx2 : (List.foldl (processCell ctx ctx.cursor.y
        ((ctx.cursor.y : ℤ) * ↑ctx.charHeight + ↑ctx.marginSize))
        ⟨(ctx.marginSize : ℤ), acc.ops, acc.logs, acc.lastChar⟩
        (List.map (fun i => (i, c i)) (List.range (k0 + 1)))).pointX =
      (ctx.marginSize : ℤ) + (↑(k0 + 1) : ℤ) * ↑ctx.charWidth := hpx
  rw [hlast, hpx2]
  refine ⟨_, rfl, ?_⟩
  rw [List.getLast?_concat]
  have hxeq : (ctx.marginSize : ℤ) + (↑(k0+1) : ℤ) * ↑ctx.charWidth
      + ((ctx.cursor.x : ℤ) - (k0 : ℤ) - 1) * ↑ctx.charWidth
      = (ctx.marginSize : ℤ) + (ctx.cursor.x : ℤ) * ↑ctx.charWidth := by
    push_cast
    ring
  rw [hxeq]

/-- C7 witness. -/
theorem processRow_cursor_rect_witness :
    ∃ acc2, processRow exCtx ⟨[], [], none⟩
        (exCtx.cursor.y, (List.range 1).map (fun i => (i, exCell))) = Except.ok acc2 ∧
      acc2.ops.getLast? = some (DrawOp.rect
        ((exCtx.marginSize : ℤ) + (exCtx.cursor.x : ℤ) * (exCtx.charWidth : ℤ),
         (exCtx.cursor.y : ℤ) * (exCtx.charHeight : ℤ) + (exCtx.marginSize : ℤ))
        ((exCtx.marginSize : ℤ) + (exCtx.cursor.x : ℤ) * (exCtx.charWidth : ℤ)
           + (exCtx.charWidth : ℤ),
         (exCtx.cursor.y : ℤ) * (exCtx.charHeight : ℤ) + (exCtx.marginSize : ℤ)
           + (exCtx.charHeight : ℤ))
        exCtx.cfg.fgDefaultColor) :=
  processRow_cursor_rect exCtx ⟨[], [], none⟩ 1 (by decide)
    (fun _ => exCell) (by intro i _; show exCell.data ≠ ""; decide) rfl rfl (by decide)

/-- C7 counterexample: on a screen whose cursor row holds a single
cell at column 5 and whose displayed cursor sits at the unoccupied
column 7, the blank-cursor rectangle is drawn at x = 25, not at
x = margin + cursor.x·cellWidth = 5 + 7·10 = 75 as claimed — the code
positions it relative to the row's drawn width and the last iterated
column key. -/
theorem tty2img_cursor_rect_misplaced :
    tty2img exEnv exScreenGap exCfg =
      Except.ok (⟨110, 40, "black",
        [DrawOp.text (5, 5) "A" "#00ff00" "DejaVuSansMono.ttf",
         DrawOp.rect (25, 5) (35, 15) "#00ff00"]⟩, []) ∧
    (25 : ℤ) ≠ 5 + 7 * 10 := by
  exact ⟨rfl, by decide⟩

/-- C8 witness. -/
theorem mainArgCheck_usage_witness :
    ([ "one" ] : List String).length ≠ 2 ∧
    (mainArgCheck "prog" ["one"] =
      some ⟨StdStream.stdout, "USAGE: prog asciicast_file output_video_file", 1⟩ ∧
    (1 : ℕ) ≠ 0) :=
  ⟨by decide, mainArgCheck_usage "prog" ["one"] (by decide)⟩

/-- Helper: with no blink value configured the while loop runs exactly
once per frame, producing a single clip of the remaining interval with
no showCursor option. -/
theorem renderLoop_simple (fuel : ℕ) (hfuel : 0 < fuel) (hidden : Bool) (s e : ℚ)
    (h : s < e) : renderLoop none hidden fuel s e 0 = [(e - s, none)] := by
  obtain ⟨n, rfl⟩ : ∃ n, fuel = n + 1 := ⟨fuel - 1, by omega⟩
  rw [renderLoop, if_pos h, if_neg (by simp [optTruthy])]
  rw [renderLoop_stop _ _ _ _ _ _ (lt_irrefl e)]

/-- Helper: the per-frame loop under the simple policy, over the zip
of frames with their end times. -/
theorem flatMap_renderLoop_simple (fuel : ℕ) (hfuel : 0 < fuel) :
    ∀ (l : List ((ℚ × Bool) × ℚ)), (∀ p ∈ l, p.1.1 < p.2) →
      (l.flatMap fun p => renderLoop none p.1.2 fuel p.1.1 p.2 0) =
        l.map (fun p => (p.2 - p.1.1, (none : Option Bool))) := by
  intro l hl
  induction l with
  | nil => rfl
  | cons a as ih =>
    rw [List.flatMap_cons, List.map_cons,
      renderLoop_simple fuel hfuel _ _ _ (hl a (by simp)),
      ih (fun p hp => hl p (by simp [hp]))]
    rfl

/-- Helper: with strictly increasing timestamps and a positive last
frame duration, every frame starts strictly before its end time. -/
theorem zip_next_lt (d : ℚ) (hd : 0 < d) :
    ∀ (frames : List (ℚ × Bool)) (last : ℚ × Bool), frames.getLast? = some last →
      List.Chain' (· < ·) (frames.map Prod.fst) →
      ∀ p ∈ frames.zip ((frames.map Prod.fst).tail ++ [last.1 + d]), p.1.1 < p.2 := by
  intro frames
  induction frames with
  | nil => intro last hlast; simp at hlast
  | cons f fs ih =>
    intro last hlast hord p hp
    cases fs with
    | nil =>
      simp at hlast
      subst hlast
      simp at hp
      subst hp
      simpa using hd
    | cons g gs =>
      rw [List.map_cons, List.tail_cons] at hp
      rw [show (g :: gs).map Prod.fst = g.1 :: gs.map Prod.fst from rfl] at hp
      rw [show (g.1 :: gs.map Prod.fst) ++ [last.1 + d]
          = g.1 :: (gs.map Prod.fst ++ [last.1 + d]) from rfl] at hp
      rw [List.zip_cons_cons] at hp
      rcases List.mem_cons.1 hp with hp1 | hp2
      · subst hp1
        have := List.chain'_cons.1 (by simpa using hord)
        exact this.1
      · have hlast2 : (g :: gs).getLast? = some last := by
          rw [← hlast]
          rfl
        have hord2 : List.Chain' (· < ·) ((g :: gs).map Prod.fst) :=
          (List.chain'_cons.1 (by simpa using hord)).2
        have := ih last hlast2 hord2 p
        apply this
        simpa using hp2

/-- C2: under the simple timing policy (no blink value), for a
non-empty frame list with strictly increasing timestamps and a
positive last-frame duration, render_asciicast_frames produces one
clip per frame; clip i lasts exactly frame (i+1)'s timestamp minus
frame i's timestamp, and the final clip lasts the configured
last-frame duration. -/
theorem render_simple_policy (fuel : ℕ) (hfuel : 0 < fuel) (frames : List (ℚ × Bool))
    (hne : frames ≠ []) (d : ℚ) (hd : 0 < d)
    (hord : List.Chain' (· < ·) (frames.map Prod.fst)) :
    render_asciicast_frames fuel frames none d =
      Except.ok ((frames.zip ((frames.map Prod.fst).tail ++ [(frames.getLast hne).1 + d])).map
        (fun p => (p.2 - p.1.1, (none : Option Bool)))) ∧
    (∀ i, (hi : i + 1 < frames.length) →
      ((frames.zip ((frames.map Prod.fst).tail ++ [(frames.getLast hne).1 + d])).map
        (fun p => (p.2 - p.1.1, (none : Option Bool))))[i]? =
        some (frames[i+1].1 - frames[i].1, none)) ∧
    ((frames.zip ((frames.map Prod.fst).tail ++ [(frames.getLast hne).1 + d])).map
        (fun p => (p.2 - p.1.1, (none : Option Bool)))).getLast? = some (d, none) := by
  have hlast : frames.getLast? = some (frames.getLast hne) := List.getLast?_eq_getLast frames hne
  have hnextlen : ((frames.map Prod.fst).tail ++ [(frames.getLast hne).1 + d]).length
      = frames.length := by
    simp [List.length_tail, List.length_map]
    cases frames with
    | nil => exact absurd rfl hne
    | cons a as => simp
  have hziplen : (frames.zip ((frames.map Prod.fst).tail ++ [(frames.getLast hne).1 + d])).length
      = frames.length := by
    rw [List.length_zip, hnextlen, min_self]
  refine ⟨?_, ?_, ?_⟩
  · simp only [render_asciicast_frames, hlast]
    rw [flatMap_renderLoop_simple fuel hfuel _
      (zip_next_lt d hd frames (frames.getLast hne) hlast hord)]
  · intro i hi
    have hiM : i < (frames.zip ((frames.map Prod.fst).tail
        ++ [(frames.getLast hne).1 + d])).length := by omega
    have hitail : i < ((frames.map Prod.fst).tail).length := by
      simp [List.length_tail, List.length_map]
      omega
    rw [List.getElem?_map, List.getElem?_eq_getElem hiM, Option.map_some']
    rw [List.getElem_zip (h := hiM)]
    rw [List.getElem_append_left hitail, List.getElem_tail, List.getElem_map]
  · have hn : 0 < frames.length := List.length_pos.2 hne
    have hM : frames.length - 1 < ((frames.zip ((frames.map Prod.fst).tail
        ++ [(frames.getLast hne).1 + d])).map
        (fun p => (p.2 - p.1.1, (none : Option Bool)))).length := by
      rw [List.length_map, hziplen]
      omega
    rw [List.getLast?_eq_getElem?, List.length_map, hziplen]
    rw [List.getElem?_eq_getElem hM, Option.some_inj]
    rw [List.getElem_map, List.getElem_zip (h := by omega)]
    have htl : ((frames.map Prod.fst).tail).length = frames.length - 1 := by
      simp [List.length_tail, List.length_map]
    have hx := List.getElem_concat_length ((frames.map Prod.fst).tail)
      ((frames.getLast hne).1 + d) (frames.length - 1) htl.symm
      (by rw [hnextlen]; omega)
    rw [hx, ← List.getLast_eq_getElem frames hne]
    simp

/-- C2 witness: frames at timestamps 0, 1, 3 with lastFrameDuration 3
produce display durations 1, 2, 3. -/
theorem render_simple_policy_witness :
    (0 : ℕ) < 1 ∧ ([((0 : ℚ), false), (1, false), (3, false)] : List (ℚ × Bool)) ≠ [] ∧
    (0 : ℚ) < 3 ∧
    render_asciicast_frames 1 [(0, false), (1, false), (3, false)] none 3 =
      Except.ok [(1, none), (2, none), (3, none)] := by
  refine ⟨by norm_num, by simp, by norm_num, ?_⟩
  have h := (render_simple_policy 1 (by norm_num) [(0, false), (1, false), (3, false)]
      (by simp) 3 (by norm_num) (by norm_num [List.chain'_cons])).1
  rw [h]
  norm_num [List.zip]

/-- Helper: fallback families whose fclist answer is empty are skipped
by the search loop. -/
theorem searchFallback_append_empty (env : PILEnv) (fontSize : ℕ) (data : String)
    (pre l : List String) (hpre : ∀ g ∈ pre, env.fclist g (hexOrd data) = []) :
    searchFallback env fontSize data (pre ++ l) = searchFallback env fontSize data l := by
  induction pre with
  | nil => rfl
  | cons g gs ih =>
    rw [List.cons_append, searchFallback, hpre g (by simp)]
    exact ih (fun g hg => hpre g (by simp [hg]))

/-- Helper: when no configured family answers, the search fails. -/
theorem searchFallback_none (env : PILEnv) (fontSize : ℕ) (data : String)
    (l : List String) (h : ∀ g ∈ l, env.fclist g (hexOrd data) = []) :
    searchFallback env fontSize data l = none := by
  induction l with
  | nil => rfl
  | cons g gs ih =>
    rw [searchFallback, h g (by simp)]
    exact ih (fun g hg => h g (by simp [hg]))

/-- C6: with glyph-coverage checking available, a logging callback
supplied, and the selected font lacking the cell's character: if some
configured fallback family contains the glyph, the cell is rendered
with the first file of the first answering family and no diagnostic is
emitted; if no configured family contains it, exactly one
missing-glyph diagnostic is emitted for the cell and the originally
selected font is used. -/
theorem resolveFont_fallback (env : PILEnv) (fontSize charWidth : ℕ) (font : FontFace)
    (data : String) (hft : env.freetypeAvailable = true)
    (hmiss : env.hasGlyph font.name data = false) :
    (∀ (pre : List String) (fam : String) (rest : List String) (file : String)
        (files : List String),
      (∀ g ∈ pre, env.fclist g (hexOrd data) = []) →
      env.fclist fam (hexOrd data) = file :: files →
      resolveFont env true (pre ++ fam :: rest) fontSize charWidth font data =
        (env.truetype file fontSize,
         max 0 (((env.truetype file fontSize).getsizeW data : ℤ) - (charWidth : ℤ)), [])) ∧
    (∀ fonts : List String, (∀ g ∈ fonts, env.fclist g (hexOrd data) = []) →
      resolveFont env true fonts fontSize charWidth font data =
        (font, 0, [missingGlyphMsg data])) := by
  constructor
  · intro pre fam rest file files hpre hfam
    rw [resolveFont, if_pos ⟨hft, hmiss⟩,
      searchFallback_append_empty env fontSize data pre _ hpre,
      searchFallback, hfam]
  · intro fonts hfonts
    rw [resolveFont, if_pos ⟨hft, hmiss⟩, searchFallback_none env fontSize data fonts hfonts]
    rfl

/-- C6 witness. -/
theorem resolveFont_fallback_witness :
    exEnvFallback.freetypeAvailable = true ∧
    exEnvFallback.hasGlyph (exFont "DejaVuSansMono.ttf").name "A" = false ∧
    resolveFont exEnvFallback true (["DroidSansFallback"] ++ "Symbola" :: []) 17 10
        (exFont "DejaVuSansMono.ttf") "A" =
      (exEnvFallback.truetype "Symbola.ttf" 17,
       max 0 (((exEnvFallback.truetype "Symbola.ttf" 17).getsizeW "A" : ℤ) - (10 : ℤ)), []) ∧
    resolveFont exEnvFallback true ["DroidSansFallback"] 17 10
        (exFont "DejaVuSansMono.ttf") "A" =
      (exFont "DejaVuSansMono.ttf", 0, [missingGlyphMsg "A"]) := by
  refine ⟨rfl, rfl, ?_, ?_⟩
  · exact (resolveFont_fallback exEnvFallback 17 10 (exFont "DejaVuSansMono.ttf") "A"
      rfl rfl).1 ["DroidSansFallback"] "Symbola" [] "Symbola.ttf" []
      (by intro g hg; simp at hg; subst hg; rfl) rfl
  · exact (resolveFont_fallback exEnvFallback 17 10 (exFont "DejaVuSansMono.ttf") "A"
      rfl rfl).2 ["DroidSansFallback"]
      (by intro g hg; simp at hg; subst hg; rfl)

/-- C9: with width or height not supplied, a headerless list input
(frame strings or frame lists) makes asciicast2video fail immediately
with the configuration error, before the pyte screen is constructed or
any frame parsed or rendered (empty trace); a string input instead has
its width and height read from the parsed header line, with which the
screen is then constructed. -/
theorem asciicast2video_missing_dims (env : IOEnv) (fuel : ℕ)
    (width height : Option ℕ) (blinking : Option ℚ) (d : ℚ)
    (hmiss : width = none ∨ height = none) :
    (∀ l : List (ℚ × String),
      asciicast2video env fuel (InputData.listFrames l) width height blinking d =
        ([], Except.error "when inputData is list width and height must be set in args")) ∧
    (∀ l : List String,
      asciicast2video env fuel (InputData.strFrames l) width height blinking d =
        ([], Except.error "when inputData is list width and height must be set in args")) ∧
    (∀ (s : String) (W H : ℕ),
      env.parseHeader ((splitLines s).headD "") = some (W, H) →
      (asciicast2video env fuel (InputData.content s) width height blinking d).1 =
        ["pyte.Screen " ++ toString W ++ " " ++ toString H]) := by
  have hfalsy : optNatFalsy width = true ∨ optNatFalsy height = true := by
    rcases hmiss with h | h <;> [left; right] <;> simp [h, optNatFalsy]
  refine ⟨?_, ?_, ?_⟩
  · intro l
    simp only [asciicast2video, if_pos hfalsy]
  · intro l
    simp only [asciicast2video, if_pos hfalsy]
  · intro s W H hheader
    simp only [asciicast2video, if_pos hfalsy, hheader]
    simp only [asciicast2videoBody]
    split <;> rfl

/-- C9 witness. -/
theorem asciicast2video_missing_dims_witness :
    ((none : Option ℕ) = none ∨ (some 24 : Option ℕ) = none) ∧
    (asciicast2video exIOEnv 1 (InputData.listFrames [(0, "x")]) none (some 24) none 3 =
      ([], Except.error "when inputData is list width and height must be set in args")) ∧
    ((asciicast2video exIOEnv 1 (InputData.content "HDR") none (some 24) none 3).1 =
      ["pyte.Screen " ++ toString (80 : ℕ) ++ " " ++ toString (24 : ℕ)]) := by
  refine ⟨Or.inl rfl, ?_, ?_⟩
  · exact (asciicast2video_missing_dims exIOEnv 1 none (some 24) none 3 (Or.inl rfl)).1
      [(0, "x")]
  · exact (asciicast2video_missing_dims exIOEnv 1 none (some 24) none 3
      (Or.inl rfl)).2.2 "HDR" 80 24 (by decide)

/-- Helper: under no-freetype the drawing position advances one cell
width per cell with non-empty data and not at all for empty-data
cells. -/
theorem foldl_processCell_pointX_countP (ctx : DrawCtx)
    (hft : ctx.env.freetypeAvailable = false) (lineIdx : ℕ) (py : ℤ) :
    ∀ (l : List (ℕ × PyteChar)) (st : CellState),
      (l.foldl (processCell ctx lineIdx py) st).pointX =
        st.pointX + (l.countP (fun p => p.2.data != "")) * ctx.charWidth := by
  intro l
  induction l with
  | nil => intro st; simp
  | cons a as ih =>
    intro st
    rw [List.foldl_cons, List.countP_cons]
    by_cases h : a.2.data = ""
    · rw [processCell, if_pos h, ih]
      simp [h]
    · rw [processCell, if_neg h, ih]
      have h2 := (cellRender_no_freetype ctx hft lineIdx st.pointX py a.2 a.1).1
      simp only [h2]
      simp only [h, bne_iff_ne, ne_eq, not_false_iff, if_true]
      push_cast
      ring

/-- Helper: counting the cells with non-empty data among columns
0..i-1 when exactly one column j < i is empty. -/
theorem countP_range_one_empty (c : ℕ → PyteChar) (i j : ℕ) (hj : j < i)
    (hempty : (c j).data = "") (hother : ∀ x, x < i → x ≠ j → (c x).data ≠ "") :
    (List.range i).countP (fun x => (c x).data != "") = i - 1 := by
  have hsplit : List.range i = List.range' 0 j ++ (j :: List.range' (j+1) (i - j - 1)) := by
    rw [List.range_eq_range']
    have h1 : List.range' j (i - j) = j :: List.range' (j+1) (i - j - 1) := by
      conv_lhs => rw [show i - j = (i - j - 1) + 1 by omega]
      rw [List.range'_succ]
    rw [← h1]
    have h4 := List.range'_append 0 j (i - j) 1
    have h2 : (0 + 1 * j) = j := by omega
    have h3 : (i - j) + j = i := by omega
    rw [h2, h3] at h4
    exact h4.symm
  rw [hsplit, List.countP_append, List.countP_cons]
  have hall1 : ∀ x ∈ List.range' 0 j, ((c x).data != "") = true := by
    intro x hx
    simp only [List.mem_range'] at hx
    obtain ⟨m, hm, rfl⟩ := hx
    simp only [bne_iff_ne, ne_eq]
    exact hother _ (by omega) (by omega)
  have hall2 : ∀ x ∈ List.range' (j+1) (i - j - 1), ((c x).data != "") = true := by
    intro x hx
    simp only [List.mem_range'] at hx
    obtain ⟨m, hm, rfl⟩ := hx
    simp only [bne_iff_ne, ne_eq]
    exact hother _ (by omega) (by omega)
  rw [List.countP_eq_length.2 hall1, List.countP_eq_length.2 hall2]
  simp [hempty]
  omega

/-- C10: a buffer cell whose data is the empty string is skipped
entirely — no background rectangle, decoration or glyph is drawn for
it, the drawing position does not advance, only the leaked loop
variable is updated; consequently, in a row occupying columns 0..n-1
with exactly one empty-data cell at column j (and no fallback extra
advance), every later cell i > j is reached at drawing position
margin + i·cellWidth − cellWidth, one cell width left of its grid
column's place, and a non-empty cell's glyph is drawn exactly at the
position the cell is reached at. -/
theorem processCell_empty_cell (ctx : DrawCtx) (lineIdx : ℕ) (pointY : ℤ)
    (hft : ctx.env.freetypeAvailable = false) :
    (∀ (st : CellState) (col : ℕ) (cData : PyteChar), cData.data = "" →
        processCell ctx lineIdx pointY st (col, cData) = { st with lastChar := some col }) ∧
    (∀ (n j i : ℕ) (c : ℕ → PyteChar) (ops0 : List DrawOp) (logs0 : List String)
        (lc0 : Option ℕ), j < i → i < n → (c j).data = "" →
        (∀ x, x < n → x ≠ j → (c x).data ≠ "") →
        ((((List.range n).map (fun x => (x, c x))).take i).foldl
            (processCell ctx lineIdx pointY)
            ⟨(ctx.marginSize : ℤ), ops0, logs0, lc0⟩).pointX =
          (ctx.marginSize : ℤ) + (i : ℤ) * (ctx.charWidth : ℤ) - (ctx.charWidth : ℤ)) ∧
    (∀ (st : CellState) (col : ℕ) (cData : PyteChar), cData.data ≠ "" →
        ∃ bgOps decoOps strikeOps fg fn,
          (processCell ctx lineIdx pointY st (col, cData)).ops =
            st.ops ++ (bgOps ++ decoOps ++ strikeOps ++
              [DrawOp.text (st.pointX, pointY) cData.data fg fn])) := by
  refine ⟨?_, ?_, ?_⟩
  · intro st col cData h
    rw [processCell, if_pos h]
  · intro n j i c ops0 logs0 lc0 hji hin hempty hother
    rw [← List.map_take, List.take_range, min_eq_left (le_of_lt hin)]
    rw [foldl_processCell_pointX_countP ctx hft lineIdx pointY]
    rw [List.countP_map]
    have hcount : (List.range i).countP ((fun p => p.2.data != "")
        ∘ (fun x => (x, c x))) = i - 1 :=
      countP_range_one_empty c i j hji hempty
        (fun x hx hxj => hother x (by omega) hxj)
    rw [hcount]
    have hcast : ((i - 1 : ℕ) : ℤ) = (i : ℤ) - 1 := by omega
    show ((ctx.marginSize : ℤ)) + ((i - 1 : ℕ) : ℤ) * (ctx.charWidth : ℤ) = _
    rw [hcast]
    ring
  · intro st col cData h
    rw [processCell, if_neg (show ¬((col, cData).2.data = "") from h)]
    simp only [cellRender]
    exact ⟨_, _, _, _, _, rfl⟩

/-- C10 witness. -/
theorem processCell_empty_cell_witness :
    exCtx.env.freetypeAvailable = false ∧
    processCell exCtx 0 5 ⟨5, [], [], none⟩ (2, exCellEmpty) =
      { pointX := 5, ops := [], logs := [], lastChar := some 2 } :=
  ⟨rfl, (processCell_empty_cell exCtx 0 5 rfl).1 ⟨5, [], [], none⟩ 2 exCellEmpty rfl⟩

end Asciicast
